import Mathlib

/- Verification development for the Coden fragment-fingerprinting and
   change-tracking engine (src/unnamed/part_001 = codefingerprint module,
   src/src/codetracker.ts, src/src/extension.ts).

   Modelling conventions:
   - JavaScript strings are `List Char`; `String.prototype.includes` is
     `containsSub`, `trim` is `trimJS`, `split('\n')` is `splitNl`.
   - JavaScript numbers are `ℚ` (the code only adds, multiplies, divides and
     compares; `x / 0` situations are guarded in the source or irrelevant to
     the comparisons made of them).
   - The `hash` field of a fingerprint (an MD5 digest in the source) is read
     by no modelled operation, so it is omitted from the structure. -/

unseal Rat.add Rat.mul Rat.sub Rat.inv Rat.ofScientific

namespace Coden

/-- Strings of the modelled program: lists of characters. -/
abbrev Str := List Char

/-- Shorthand turning a Lean string literal into a modelled string. -/
def S (s : String) : Str := s.toList

/-- JavaScript regexp `\w` class: `[A-Za-z0-9_]`. -/
def isWordCharJS (c : Char) : Bool := c.isAlphanum || c = '_'

/-- JavaScript regexp `\s` class (ASCII part). -/
def isSpaceJS (c : Char) : Bool :=
  c = ' ' || c = '\t' || c = '\n' || c = '\r' || c = '\x0b' || c = '\x0c'

/-- `hay.includes(pat)` for JavaScript strings: substring containment. -/
def containsSub (hay pat : Str) : Bool :=
  match hay with
  | [] => pat.isEmpty
  | c :: t => pat.isPrefixOf (c :: t) || containsSub t pat

/-- `String.prototype.trim`. -/
def trimJS (s : Str) : Str :=
  ((s.dropWhile isSpaceJS).reverse.dropWhile isSpaceJS).reverse

/-- `String.prototype.split('\n')`. -/
def splitNl : Str → List Str
  | [] => [[]]
  | c :: t =>
    if c = '\n' then [] :: splitNl t
    else
      match splitNl t with
      | [] => [[c]]
      | h :: r => (c :: h) :: r

/-- `code.split('\n').length`. -/
def numLines (s : Str) : Nat := (splitNl s).length

/-! ## A small JavaScript-regexp evaluator

The extraction functions of the source are built from JavaScript regexps.
They are modelled by transliterating each regexp into the `Re` syntax below
and running it with a backtracking matcher whose result order mirrors the
JavaScript engine: alternatives are tried left to right, character-class
quantifiers are greedy (longest split first), and `exec`/`match` with the
`g` flag repeatedly takes the leftmost match and resumes after it.  Every
quantified subexpression in the source's regexps is a single character
class, which the syntax builds in directly (`starC`, `plusC`), so matching
terminates structurally. -/

/-- Regexp syntax: literal string, character class, greedy `*` and `+` on a
character class, sequencing, ordered alternation, numbered capturing group,
and the `\b` word boundary. -/
inductive Re where
  | strL (s : Str)
  | cls (p : Char → Bool)
  | starC (p : Char → Bool)
  | plusC (p : Char → Bool)
  | seq (a b : Re)
  | alt (a b : Re)
  | grp (i : Nat) (a : Re)
  | wb

/-- Matcher state: the remaining input, the character just before it (for
`\b`), and the captures recorded so far. -/
structure MSt where
  rest : Str
  prev : Option Char
  caps : List (Nat × Str)

/-- Advance a state by `k` consumed characters. -/
def MSt.adv (st : MSt) (k : Nat) : MSt :=
  { st with rest := st.rest.drop k,
            prev := if k = 0 then st.prev else (st.rest.take k).getLast? }

/-- Length of the maximal prefix of characters satisfying `p`. -/
def runLen (p : Char → Bool) : Str → Nat
  | [] => 0
  | c :: t => if p c then runLen p t + 1 else 0

/-- Is an optional character a word character (`\b` looks at both sides;
the edge of the string counts as a non-word character)? -/
def wordAt : Option Char → Bool
  | some c => isWordCharJS c
  | none => false

/-- All ways the regexp can match a prefix of the state's input, in
backtracking priority order (first result = what the JavaScript engine
picks). -/
def mrun : Re → MSt → List MSt
  | .strL s, st => if s.isPrefixOf st.rest then [st.adv s.length] else []
  | .cls p, st =>
    match st.rest with
    | c :: _ => if p c then [st.adv 1] else []
    | [] => []
  | .starC p, st =>
    ((List.range (runLen p st.rest + 1)).reverse).map (fun k => st.adv k)
  | .plusC p, st =>
    ((List.range (runLen p st.rest)).reverse).map (fun k => st.adv (k + 1))
  | .seq a b, st => (mrun a st).flatMap (mrun b)
  | .alt a b, st => mrun a st ++ mrun b st
  | .grp i a, st =>
    (mrun a st).map (fun st2 =>
      { st2 with caps :=
          st2.caps ++ [(i, st.rest.take (st.rest.length - st2.rest.length))] })
  | .wb, st => if wordAt st.prev != wordAt st.rest.head? then [st] else []

/-- One regexp match: the matched text and the captures. -/
structure RMatch where
  text : Str
  caps : List (Nat × Str)

/-- First match of the regexp at exactly this position, if any. -/
def execFirst (re : Re) (prev : Option Char) (s : Str) : Option RMatch :=
  match mrun re { rest := s, prev := prev, caps := [] } with
  | [] => none
  | st :: _ => some { text := s.take (s.length - st.rest.length), caps := st.caps }

/-- Scanning loop of `exec` with the `g` flag / `String.prototype.match`:
leftmost match, then resume after it.  (None of the modelled regexps can
match the empty string, so the end-of-input position never matches.) -/
def scanGo (re : Re) : Nat → Option Char → Str → List RMatch
  | 0, _, _ => []
  | _ + 1, _, [] => []
  | fuel + 1, prev, c :: t =>
    match execFirst re prev (c :: t) with
    | none => scanGo re fuel (some c) t
    | some m =>
      if m.text.isEmpty then m :: scanGo re fuel (some c) t
      else m :: scanGo re fuel m.text.getLast? ((c :: t).drop m.text.length)

/-- All matches of a regexp over a string. -/
def scanAll (re : Re) (s : Str) : List RMatch := scanGo re (s.length + 1) none s

/-- JavaScript `match[i]`: the text of capture group `i`, if it participated. -/
def capGet (caps : List (Nat × Str)) (i : Nat) : Option Str :=
  (caps.find? (fun x => x.1 == i)).map (fun x => x.2)

/-- JavaScript `match[i] || dflt` (an absent or empty capture is falsy). -/
def capOr (m : RMatch) (i : Nat) (dflt : Str) : Str :=
  match capGet m.caps i with
  | some s => if s.isEmpty then dflt else s
  | none => dflt

/-- JavaScript `match[i₁] || match[i₂] || ... || dflt`. -/
def firstCap (m : RMatch) : List Nat → Str → Str
  | [], dflt => dflt
  | i :: is, dflt =>
    match capGet m.caps i with
    | some s => if s.isEmpty then firstCap m is dflt else s
    | none => firstCap m is dflt

/-- Deduplication keeping first occurrences (`[...new Set(xs)]`). -/
def dedupFirstGo (seen : List Str) : List Str → List Str
  | [] => []
  | x :: t => if seen.contains x then dedupFirstGo seen t
              else x :: dedupFirstGo (x :: seen) t

/-- `[...new Set(xs)]`. -/
def dedupFirst (xs : List Str) : List Str := dedupFirstGo [] xs

/-- Single-quote character. -/
def sq : Char := Char.ofNat 39

/-- Double-quote character. -/
def dq : Char := Char.ofNat 34

/-- Opening curly brace character. -/
def obr : Char := Char.ofNat 123

/-- Closing curly brace character. -/
def cbr : Char := Char.ofNat 125

/-- Character class `['"]`. -/
def quoteC (c : Char) : Bool := c == sq || c == dq

/-- Regexp `\s*`. -/
def spStar : Re := .starC isSpaceJS

/-- Regexp `\s+`. -/
def spPlus : Re := .plusC isSpaceJS

/-- Regexp `[a-zA-Z0-9_]+` (the source spells `\w+` this way too). -/
def wordCls : Re := .plusC isWordCharJS

/-- Regexp `[a-zA-Z][a-zA-Z0-9_]*`: an identifier-shaped token. -/
def nameRe : Re := .seq (.cls (fun c => c.isAlpha)) (.starC isWordCharJS)

/-- `importRegexes['typescript'|'javascript']`:
`import\s+(?:\{[^}]+\}|[^{;]+)\s+from\s+['"]([^'"]+)['"]`. -/
def jsImportRe : Re :=
  .seq (.strL (S ("import"))) (.seq spPlus
  (.seq (.alt (.seq (.strL [obr]) (.seq (.plusC (fun c => c != cbr)) (.strL [cbr])))
              (.plusC (fun c => c != obr && c != ';')))
  (.seq spPlus (.seq (.strL (S ("from"))) (.seq spPlus
  (.seq (.cls quoteC)
  (.seq (.grp 1 (.plusC (fun c => !(quoteC c))))
        (.cls quoteC))))))))

/-- `importRegexes['python']`: `(?:from\s+([^\s]+)\s+import|import\s+([^\s]+))`. -/
def pyImportRe : Re :=
  .alt (.seq (.strL (S ("from"))) (.seq spPlus
        (.seq (.grp 1 (.plusC (fun c => !(isSpaceJS c))))
        (.seq spPlus (.strL (S ("import")))))))
       (.seq (.strL (S ("import"))) (.seq spPlus
        (.grp 2 (.plusC (fun c => !(isSpaceJS c))))))

/-- `importRegexes['java']`: `import\s+([^;]+);`. -/
def javaImportRe : Re :=
  .seq (.strL (S ("import"))) (.seq spPlus
  (.seq (.grp 1 (.plusC (fun c => c != ';'))) (.strL [';'])))

/-- `importRegexes['csharp']`: `using\s+([^;]+);`. -/
def csImportRe : Re :=
  .seq (.strL (S ("using"))) (.seq spPlus
  (.seq (.grp 1 (.plusC (fun c => c != ';'))) (.strL [';'])))

/-- `importRegexes['default']`: `import|using|include|require`. -/
def defaultImportRe : Re :=
  .alt (.strL (S ("import"))) (.alt (.strL (S ("using")))
  (.alt (.strL (S ("include"))) (.strL (S ("require")))))

/-- The function regexp:
`function\s+([a-zA-Z0-9_]+)\s*\(|([a-zA-Z0-9_]+)\s*=\s*function\s*\(|([a-zA-Z0-9_]+)\s*=\s*\([^)]*\)\s*=>|([a-zA-Z0-9_]+)\s*\([^)]*\)\s*\x7b`. -/
def functionRe : Re :=
  .alt (.seq (.strL (S ("function"))) (.seq spPlus
        (.seq (.grp 1 wordCls) (.seq spStar (.strL ['('])))))
  (.alt (.seq (.grp 2 wordCls) (.seq spStar (.seq (.strL ['='])
         (.seq spStar (.seq (.strL (S ("function"))) (.seq spStar (.strL ['('])))))))
  (.alt (.seq (.grp 3 wordCls) (.seq spStar (.seq (.strL ['='])
         (.seq spStar (.seq (.strL ['(']) (.seq (.starC (fun c => c != ')'))
         (.seq (.strL [')']) (.seq spStar (.strL (S ("=>")))))))))))
        (.seq (.grp 4 wordCls) (.seq spStar (.seq (.strL ['('])
         (.seq (.starC (fun c => c != ')'))
         (.seq (.strL [')']) (.seq spStar (.strL [obr])))))))))

/-- The class regexp: `class\s+([a-zA-Z0-9_]+)`. -/
def classRe : Re :=
  .seq (.strL (S ("class"))) (.seq spPlus (.grp 1 wordCls))

/-- Character class `[a-zA-Z0-9_<>[\]]`. -/
def typeChar (c : Char) : Bool :=
  isWordCharJS c || c == '<' || c == '>' || c == '[' || c == ']'

/-- The variable regexp:
`(?:const|let|var)\s+([a-zA-Z0-9_]+)\s*=|([a-zA-Z0-9_]+)\s*:\s*[a-zA-Z0-9_<>[\]]+\s*=`. -/
def varRe : Re :=
  .alt (.seq (.alt (.strL (S ("const"))) (.alt (.strL (S ("let"))) (.strL (S ("var")))))
        (.seq spPlus (.seq (.grp 1 wordCls) (.seq spStar (.strL ['='])))))
       (.seq (.grp 2 wordCls) (.seq spStar (.seq (.strL [':'])
        (.seq spStar (.seq (.plusC typeChar) (.seq spStar (.strL ['='])))))))

/-- The identifier regexp: `\b([a-zA-Z][a-zA-Z0-9_]{2,})\b`. -/
def identifierRe : Re :=
  .seq .wb (.seq (.grp 1 (.seq (.cls (fun c => c.isAlpha))
    (.seq (.cls isWordCharJS) (.seq (.cls isWordCharJS) (.starC isWordCharJS))))) .wb)

/-- The function-call regexp: `\b([a-zA-Z][a-zA-Z0-9_]*)\s*\([^(]*\)`. -/
def funcCallRe : Re :=
  .seq .wb (.seq (.grp 1 nameRe) (.seq spStar (.seq (.strL ['('])
    (.seq (.starC (fun c => c != '(')) (.strL [')'])))))

/-- The property-access regexp:
`\b([a-zA-Z][a-zA-Z0-9_]*)\s*\.\s*([a-zA-Z][a-zA-Z0-9_]*)`. -/
def propAccessRe : Re :=
  .seq .wb (.seq (.grp 1 nameRe) (.seq spStar (.seq (.strL ['.'])
    (.seq spStar (.grp 2 nameRe)))))

/-- A regexp is word-requiring when every match of it must consume at least
one `\w` character.  All of the source's extraction regexps are
word-requiring, which is what makes extraction empty on symbol-only input. -/
inductive ReqWord : Re → Prop where
  | strL {s : Str} (h : ∃ c ∈ s, isWordCharJS c = true) : ReqWord (.strL s)
  | cls {p : Char → Bool} (h : ∀ c, p c = true → isWordCharJS c = true) :
      ReqWord (.cls p)
  | plusC {p : Char → Bool} (h : ∀ c, p c = true → isWordCharJS c = true) :
      ReqWord (.plusC p)
  | seqL {a b : Re} (h : ReqWord a) : ReqWord (.seq a b)
  | seqR {a b : Re} (h : ReqWord b) : ReqWord (.seq a b)
  | alt {a b : Re} (ha : ReqWord a) (hb : ReqWord b) : ReqWord (.alt a b)
  | grp {i : Nat} {a : Re} (h : ReqWord a) : ReqWord (.grp i a)

/-! ## The codefingerprint module (src/unnamed/part_001)

Data model of `CodeFingerprint` / `StructuralElement`. -/

/-- The `type` field of a `StructuralElement`:
`'function' | 'class' | 'import' | 'variable' | 'other'`
(renamed because `function`, `class`, `import`, `variable` are Lean keywords). -/
inductive ElemType where
  | fnDef
  | classDef
  | importDecl
  | varDecl
  | other
deriving DecidableEq

/-- `StructuralElement` from the source (`type`, `name`, `pattern`,
`importance`). -/
structure StructuralElement where
  etype : ElemType
  name : Str
  pattern : Str
  importance : ℚ
deriving DecidableEq

/-- `CodeFingerprint` from the source. The `hash` field (an MD5 digest used
by no operation modelled here) is omitted. -/
structure CodeFingerprint where
  originalText : Str
  lineCount : Nat
  structuralElements : List StructuralElement
  identifiers : List Str
  language : Str
  semanticPatterns : List Str
deriving DecidableEq

/-- `extractStructuralElements(code, language)`: runs the import regexp
selected by `language`, then the function, class and variable regexps, and
turns every match into a `StructuralElement` with the fixed importance of
its kind. -/
def extractStructuralElements (code : Str) (language : Str) :
    List StructuralElement :=
  let langRegex :=
    if language = S ("typescript") then jsImportRe
    else if language = S ("javascript") then jsImportRe
    else if language = S ("python") then pyImportRe
    else if language = S ("java") then javaImportRe
    else if language = S ("csharp") then csImportRe
    else defaultImportRe
  let imports := (scanAll langRegex code).map (fun m =>
    { etype := ElemType.importDecl, name := capOr m 1 m.text,
      pattern := m.text, importance := (0.5 : ℚ) })
  let functions := (scanAll functionRe code).map (fun m =>
    { etype := ElemType.fnDef, name := firstCap m [1, 2, 3, 4] (S ("anonymous")),
      pattern := m.text, importance := (0.8 : ℚ) })
  let classes := (scanAll classRe code).map (fun m =>
    { etype := ElemType.classDef, name := capOr m 1 [],
      pattern := m.text, importance := (0.9 : ℚ) })
  let varDecls := (scanAll varRe code).map (fun m =>
    { etype := ElemType.varDecl, name := firstCap m [1, 2] (S ("unknown")),
      pattern := m.text, importance := (0.6 : ℚ) })
  imports ++ functions ++ classes ++ varDecls

/-- The keyword stoplist of `extractSignificantIdentifiers`. -/
def commonKeywords : List Str :=
  [S ("function"), S ("class"), S ("const"), S ("let"), S ("var"),
   S ("return"), S ("if"), S ("else"), S ("for"), S ("while"),
   S ("import"), S ("export"), S ("from"), S ("require"),
   S ("string"), S ("number"), S ("boolean"), S ("object"), S ("array"),
   S ("true"), S ("false"), S ("null"), S ("undefined")]

/-- `extractSignificantIdentifiers(code)`. -/
def extractSignificantIdentifiers (code : Str) : List Str :=
  let allMatches := (scanAll identifierRe code).map (fun m => m.text)
  dedupFirst (allMatches.filter (fun id => !(commonKeywords.contains id)))

/-- `extractSemanticPatterns(code, language)` (the body reads only `code`). -/
def extractSemanticPatterns (code : Str) (language : Str) : List Str :=
  let callPatterns := ((scanAll funcCallRe code).filter (fun m =>
    match capGet m.caps 1 with
    | some n => n.length > 2
    | none => false)).map (fun m => m.text)
  let propPatterns := (scanAll propAccessRe code).map (fun m => m.text)
  let flags :=
    (if containsSub code (S ("=>")) then [S ("arrow_function")] else []) ++
    (if containsSub code (S ("class")) then [S ("class_definition")] else []) ++
    (if containsSub code (S ("import")) then [S ("import_statement")] else []) ++
    (if containsSub code (S ("async")) then [S ("async_code")] else []) ++
    (if containsSub code (S ("try")) && containsSub code (S ("catch")) then
      [S ("error_handling")] else [])
  dedupFirst (callPatterns ++ propPatterns ++ flags)

/-- `generateCodeFingerprint(code, language)` (the `hash` field, unused by
every modelled consumer, is omitted). -/
def generateCodeFingerprint (code : Str) (language : Str) : CodeFingerprint :=
  { originalText := code,
    lineCount := numLines code,
    structuralElements := extractStructuralElements code language,
    identifiers := extractSignificantIdentifiers code,
    language := language,
    semanticPatterns := extractSemanticPatterns code language }

/-- Result record of `checkStructuralElements`. -/
structure ElemCheck where
  found : List StructuralElement
  notFound : List StructuralElement
  overallScore : ℚ
deriving DecidableEq

/-- Result record of `checkIdentifiers` / `checkPatterns`. -/
structure StrCheck where
  found : List Str
  notFound : List Str
  overallScore : ℚ
deriving DecidableEq

/-- `checkStructuralElements(elements, content)`. -/
def checkStructuralElements (elements : List StructuralElement) (content : Str) :
    ElemCheck :=
  let found := elements.filter (fun el => containsSub content el.pattern)
  let notFound := elements.filter (fun el => !(containsSub content el.pattern))
  let totalWeight := elements.foldl (fun sum el => sum + el.importance) 0
  let foundWeight := found.foldl (fun sum el => sum + el.importance) 0
  { found := found, notFound := notFound,
    overallScore := if totalWeight > 0 then foundWeight / totalWeight else 0 }

/-- `checkIdentifiers(identifiers, content)`. -/
def checkIdentifiers (identifiers : List Str) (content : Str) : StrCheck :=
  let found := identifiers.filter (fun id => containsSub content id)
  let notFound := identifiers.filter (fun id => !(containsSub content id))
  { found := found, notFound := notFound,
    overallScore :=
      if identifiers.length > 0 then
        (found.length : ℚ) / (identifiers.length : ℚ)
      else 0 }

/-- `checkPatterns(patterns, content)`. -/
def checkPatterns (patterns : List Str) (content : Str) : StrCheck :=
  let found := patterns.filter (fun p => containsSub content p)
  let notFound := patterns.filter (fun p => !(containsSub content p))
  { found := found, notFound := notFound,
    overallScore :=
      if patterns.length > 0 then
        (found.length : ℚ) / (patterns.length : ℚ)
      else 0 }

/-- The `results` record assembled inside `checkCodeExistence`. -/
structure MatchResults where
  structuralMatches : ElemCheck
  identifierMatches : StrCheck
  patternMatches : StrCheck
deriving DecidableEq

/-- `calculateConfidence(results, fingerprint)`. -/
def calculateConfidence (results : MatchResults) (fingerprint : CodeFingerprint) :
    ℚ :=
  let weightedScore :=
    results.structuralMatches.overallScore * (0.5 : ℚ) +
    results.identifierMatches.overallScore * (0.3 : ℚ) +
    results.patternMatches.overallScore * (0.2 : ℚ)
  let complexityFactor := min 1 ((0.3 : ℚ) + (fingerprint.lineCount : ℚ) * (0.05 : ℚ))
  min 1 (weightedScore * complexityFactor)

/-- `calculateExistenceThreshold(fingerprint)`. -/
def calculateExistenceThreshold (fingerprint : CodeFingerprint) : ℚ :=
  let threshold : ℚ :=
    if fingerprint.lineCount ≤ 1 then 0.5
    else if fingerprint.lineCount ≥ 10 then 0.2
    else 0.3
  let elementCount := fingerprint.structuralElements.length
  let threshold :=
    if elementCount = 0 then threshold + 0.1
    else if elementCount ≥ 3 then threshold - 0.1
    else threshold
  max 0.1 (min 0.7 threshold)

/-- The `matchDetails` field: `{ type: 'exact_match' }` on the fast path,
the detailed `results` record otherwise. -/
inductive MatchDetails where
  | exactMatch
  | detailed (results : MatchResults)
deriving DecidableEq

/-- Result record of `checkCodeExistence`. -/
structure ExistenceResult where
  exists' : Bool
  modified : Bool
  confidence : ℚ
  matchDetails : MatchDetails
deriving DecidableEq

/-- `checkCodeExistence(fingerprint, currentContent)`. -/
def checkCodeExistence (fingerprint : CodeFingerprint) (currentContent : Str) :
    ExistenceResult :=
  if containsSub currentContent fingerprint.originalText then
    { exists' := true, modified := false, confidence := 1,
      matchDetails := .exactMatch }
  else
    let results : MatchResults :=
      { structuralMatches :=
          checkStructuralElements fingerprint.structuralElements currentContent,
        identifierMatches := checkIdentifiers fingerprint.identifiers currentContent,
        patternMatches := checkPatterns fingerprint.semanticPatterns currentContent }
    let confidence := calculateConfidence results fingerprint
    let existenceThreshold := calculateExistenceThreshold fingerprint
    let modificationThreshold := existenceThreshold + 0.2
    { exists' := decide (confidence ≥ existenceThreshold),
      modified := decide (confidence ≥ existenceThreshold) &&
        decide (confidence < modificationThreshold),
      confidence := confidence,
      matchDetails := .detailed results }

/-! ## The code tracker (src/src/codetracker.ts)

`trackCodeChanges(document, region)` reads the document's text and language
id and mutates the region; it is modelled as a function from the text, the
language id and the region to the result together with the updated region. -/

/-- The `changeType` field of a `CodeTrackingResult`. -/
inductive ChangeType where
  | unchanged
  | modified
  | deleted
  | unknown
deriving DecidableEq

/-- `CodeTrackingResult` from codetracker.ts. -/
structure CodeTrackingResult where
  exists' : Bool
  modified : Bool
  confidence : ℚ
  changeType : ChangeType
  details : MatchDetails
deriving DecidableEq

/-- `TrackedCodeRegion` from codetracker.ts (`fingerprint` is checked for
absence by `trackCodeChanges`, hence `Option`; the `modified?`/`deleted?`
status flags and `lastTrackingResult?` are optional in the source). -/
structure TrackedCodeRegion where
  id : Str
  startLine : Nat
  endLine : Nat
  startChar : Nat
  endChar : Nat
  text : Str
  timestamp : ℤ
  fingerprint : Option CodeFingerprint
  modified : Option Bool
  deleted : Option Bool
  lastTrackingResult : Option CodeTrackingResult

/-- `trackCodeChanges(document, region)`: returns the result and the region
as mutated by the call. -/
def trackCodeChanges (currentContent : Str) (languageId : Str)
    (region : TrackedCodeRegion) : CodeTrackingResult × TrackedCodeRegion :=
  let fp :=
    match region.fingerprint with
    | some f => f
    | none => generateCodeFingerprint region.text languageId
  let existenceResult := checkCodeExistence fp currentContent
  let changeType :=
    if existenceResult.exists' then
      (if existenceResult.modified then ChangeType.modified
       else ChangeType.unchanged)
    else ChangeType.deleted
  let result : CodeTrackingResult :=
    { exists' := existenceResult.exists', modified := existenceResult.modified,
      confidence := existenceResult.confidence, changeType := changeType,
      details := existenceResult.matchDetails }
  (result,
   { region with fingerprint := some fp, lastTrackingResult := some result,
                 modified := some result.modified,
                 deleted := some (!existenceResult.exists') })

/-! ## The multi-method tracker's fusion (src/src/extension.ts)

`combineTrackingResults` (lines 907-935) and the import branch inlined in
`trackAICodeChanges` (lines 986-1017).  Only the fields the fusion reads and
produces are modelled; the diagnostic `modType` string and the concatenated
`modifications` lists are carried along by neither claim and are omitted. -/

/-- The part of a method result record read by the fusion. -/
structure MethodResult where
  confidence : ℚ
  modificationDetected : Bool
  deletionDetected : Bool

/-- JavaScript's implicit boolean-to-number coercion in
`flag * confidence`. -/
def b2q (b : Bool) : ℚ := if b then 1 else 0

/-- The fused verdict. -/
structure CombinedResult where
  modificationDetected : Bool
  deletionDetected : Bool
  confidence : ℚ

/-- `combineTrackingResults(lineResults, semanticResults, snapshotResults)`. -/
def combineTrackingResults (lineResults semanticResults snapshotResults :
    MethodResult) : CombinedResult :=
  let totalConfidence :=
    lineResults.confidence + semanticResults.confidence +
      snapshotResults.confidence
  let weightedModification :=
    (b2q lineResults.modificationDetected * lineResults.confidence +
     b2q semanticResults.modificationDetected * semanticResults.confidence +
     b2q snapshotResults.modificationDetected * snapshotResults.confidence) /
      totalConfidence
  let weightedDeletion :=
    (b2q lineResults.deletionDetected * lineResults.confidence +
     b2q semanticResults.deletionDetected * semanticResults.confidence +
     b2q snapshotResults.deletionDetected * snapshotResults.confidence) /
      totalConfidence
  { modificationDetected := decide (weightedModification > (0.5 : ℚ)),
    deletionDetected := decide (weightedDeletion > (0.5 : ℚ)),
    confidence := totalConfidence / 3 }

/-- The import-statement fusion inlined in `trackAICodeChanges` (four
methods, and a higher `0.7` bar for deletion). -/
def combineImportTrackingResults (lineResults semanticResults snapshotResults
    importResults : MethodResult) : CombinedResult :=
  let totalConfidence :=
    lineResults.confidence + semanticResults.confidence +
      snapshotResults.confidence + importResults.confidence
  let weightedModification :=
    (b2q lineResults.modificationDetected * lineResults.confidence +
     b2q semanticResults.modificationDetected * semanticResults.confidence +
     b2q snapshotResults.modificationDetected * snapshotResults.confidence +
     b2q importResults.modificationDetected * importResults.confidence) /
      totalConfidence
  let weightedDeletion :=
    (b2q lineResults.deletionDetected * lineResults.confidence +
     b2q semanticResults.deletionDetected * semanticResults.confidence +
     b2q snapshotResults.deletionDetected * snapshotResults.confidence +
     b2q importResults.deletionDetected * importResults.confidence) /
      totalConfidence
  { modificationDetected := decide (weightedModification > (0.5 : ℚ)),
    deletionDetected := decide (weightedDeletion > (0.7 : ℚ)),
    confidence := totalConfidence / 4 }

/-- Modelled from the spec's words, for comparison with the code's fusion:
the confidence-weighted average of the methods' 0/1 flags (flags weighted by
each method's confidence, divided by summed confidence). -/
def weightedFlagAverage (rs : List MethodResult)
    (flag : MethodResult → Bool) : ℚ :=
  (rs.map (fun r => b2q (flag r) * r.confidence)).sum /
    (rs.map (fun r => r.confidence)).sum

/-! ## Helpers shared by validation and reconciliation (src/src/extension.ts) -/

/-- `isShortStatement(text)`: trimmed length under 30 and a single line. -/
def isShortStatement (text : Str) : Bool :=
  (trimJS text).length < 30 && numLines text == 1

/-- The token regexp of `extractSignificantTokens`: `\b([a-zA-Z]\w*)\b`. -/
def tokensRe : Re :=
  .seq .wb (.seq (.grp 1 (.seq (.cls (fun c => c.isAlpha))
    (.starC isWordCharJS))) .wb)

/-- `extractSignificantTokens(text)`. -/
def extractSignificantTokens (text : Str) : List Str :=
  dedupFirst ((scanAll tokensRe text).map (fun m => m.text))

/-- `statementExistsInContent(statement, content)`. -/
def statementExistsInContent (statement content : Str) : Bool :=
  if containsSub content (trimJS statement) then true
  else
    let tokens := extractSignificantTokens statement
    if tokens.length = 0 then false
    else
      let foundTokens := tokens.filter (fun token =>
        token.length > 2 && containsSub content token)
      decide ((foundTokens.length : ℚ) ≥
        max 1 ((tokens.length : ℚ) * (0.6 : ℚ)))

/-! ## The region ledger (src/src/extension.ts)

Per-file modification/deletion history records and the two passes over them:
`performFinalValidation` (lines 1835-1992) and `reconcileTrackingData`
(lines 1997-2063) with its helper `validateShortStatementReconciliation`
(lines 2068-2121).  Both passes work per file; they are modelled on one
file's data, with the current content of the file on disk passed in
(`none` when there is no workspace or the file does not exist, in which
case the source skips the file).  `Date.now()` is passed in as `now`. -/

/-- One entry of a file's `modifications` list. -/
structure ModRec where
  id : Str
  originalTimestamp : ℤ
  modificationTimestamp : ℤ
  originalText : Str
  confidenceScore : ℚ
  modType : Str
  finalStatus : Option Str
deriving DecidableEq

/-- One entry of a file's `deletions` list. -/
structure DelRec where
  id : Str
  originalTimestamp : ℤ
  deletionTimestamp : ℤ
  originalText : Str
  confidenceScore : ℚ
deriving DecidableEq

/-- One file's slot of the modification-tracking store. -/
structure FileTrackingData where
  modifications : List ModRec
  deletions : List DelRec
deriving DecidableEq

/-- The `modifications.push({...})` guarded by `!...some(mod => mod.id ===
deletion.id)` used by both validation passes: appends a reclassification
record unless one with this id is already present; returns the new list and
whether a push happened. -/
def pushIfAbsent (mods : List ModRec) (d : DelRec) (conf : ℚ) (mt : Str)
    (now : ℤ) : List ModRec × Bool :=
  if mods.any (fun m => m.id == d.id) then (mods, false)
  else
    (mods ++ [{ id := d.id, originalTimestamp := d.originalTimestamp,
                modificationTimestamp := now, originalText := d.originalText,
                confidenceScore := conf, modType := mt, finalStatus := none }],
     true)

/-- The body of the `deletions.filter` callback of `performFinalValidation`,
together with the `modifications.push` side effects it performs: returns
(keep-in-deletions?, updated modifications, was-a-modification-pushed?). -/
def validateOne (content : Str) (now : ℤ) (mods : List ModRec) (d : DelRec) :
    Bool × List ModRec × Bool :=
  if d.originalText.length < 5 then (true, mods, false)
  else if isShortStatement d.originalText &&
      statementExistsInContent d.originalText content then
    let pr := pushIfAbsent mods d (0.9 : ℚ) (S ("statement_exists")) now
    (false, pr.1, pr.2)
  else if isShortStatement d.originalText &&
      decide (d.confidenceScore < (0.7 : ℚ)) then
    (false, mods, false)
  else if d.originalText.length < 30 &&
      containsSub content (trimJS d.originalText) then
    let pr := pushIfAbsent mods d (0.8 : ℚ) (S ("content_exists")) now
    (false, pr.1, pr.2)
  else
    let identifiers := extractSignificantTokens d.originalText
    if 2 ≤ identifiers.length then
      let foundIdentifiers := identifiers.filter (fun id =>
        containsSub content id && decide (3 < id.length))
      if decide ((foundIdentifiers.length : ℚ) ≥
          max 2 ((identifiers.length : ℚ) * (0.6 : ℚ))) then
        let pr := pushIfAbsent mods d (0.7 : ℚ) (S ("identifiers_found")) now
        (false, pr.1, pr.2)
      else (true, mods, false)
    else (true, mods, false)

/-- The `deletions.filter` loop of `performFinalValidation` on one file:
threads the (mutable in the source) modifications list and the `changes`
flag through the deletions left to right. -/
def finalValidateFold (content : Str) (now : ℤ) :
    List DelRec → List ModRec → Bool → List DelRec × List ModRec × Bool
  | [], mods, changes => ([], mods, changes)
  | d :: ds, mods, changes =>
    let r := validateOne content now mods d
    let rec' := finalValidateFold content now ds r.2.1 (changes || r.2.2)
    (if r.1 then d :: rec'.1 else rec'.1, rec'.2.1, rec'.2.2)

/-- `performFinalValidation` restricted to one file with current content
`content`: the filtered deletions replace the stored ones only when a
reclassification actually pushed a modification (`changes`) and the filtered
list differs in length; the pushed modifications always persist (the source
pushes into `modData` directly). -/
def performFinalValidationFile (content : Str) (now : ℤ)
    (fd : FileTrackingData) : FileTrackingData :=
  let r := finalValidateFold content now fd.deletions fd.modifications false
  { modifications := r.2.1,
    deletions :=
      if r.2.2 && decide (r.1.length ≠ fd.deletions.length) then r.1
      else fd.deletions }

/-- The condition under which C6 says a deletion's fragment is "still
found": its (short-statement) token check succeeds, or its trimmed text of
a sub-30-character fragment occurs in the content, or at least 60% (and at
least 2) of its significant identifiers longer than 3 characters are
found. -/
def stillFoundInContent (content : Str) (d : DelRec) : Bool :=
  (isShortStatement d.originalText &&
    statementExistsInContent d.originalText content) ||
  (d.originalText.length < 30 && containsSub content (trimJS d.originalText)) ||
  (2 ≤ (extractSignificantTokens d.originalText).length &&
    decide ((((extractSignificantTokens d.originalText).filter (fun id =>
      containsSub content id && decide (3 < id.length))).length : ℚ) ≥
      max 2 (((extractSignificantTokens d.originalText).length : ℚ) * (0.6 : ℚ))))

/-- The `deletions.filter` loop of `validateShortStatementReconciliation`:
deletions of short single-line statements whose tokens still exist are moved
to the modifications list. -/
def validateShortStatementFold (content : Str) (now : ℤ) :
    List DelRec → List ModRec → List DelRec × List ModRec
  | [], mods => ([], mods)
  | d :: ds, mods =>
    if d.originalText.isEmpty then
      let r := validateShortStatementFold content now ds mods
      (d :: r.1, r.2)
    else if (trimJS d.originalText).length < 30 && numLines d.originalText == 1 &&
        statementExistsInContent d.originalText content then
      let mods' := (pushIfAbsent mods d (0.9 : ℚ)
        (S ("statement_verified_exists")) now).1
      validateShortStatementFold content now ds mods'
    else
      let r := validateShortStatementFold content now ds mods
      (d :: r.1, r.2)

/-- `validateShortStatementReconciliation(fileData, filePath)`: a no-op when
the workspace or file is unavailable (`content = none`). -/
def validateShortStatementReconciliation (content : Option Str) (now : ℤ)
    (fd : FileTrackingData) : FileTrackingData :=
  match content with
  | none => fd
  | some c =>
    let r := validateShortStatementFold c now fd.deletions fd.modifications
    { modifications := r.2, deletions := r.1 }

/-- `findIndex(mod => mod.id === del.id)` resolved to the record found. -/
def findFirstMod (mods : List ModRec) (did : Str) : Option ModRec :=
  mods.find? (fun m => m.id == did)

/-- The `finalStatus = "deleted"` mutation on the first modification with
the given id (only when `finalStatus` is not already set). -/
def markFirstDeleted (mods : List ModRec) (did : Str) : List ModRec :=
  match mods with
  | [] => []
  | m :: t =>
    if m.id == did then
      (if m.finalStatus.isNone then { m with finalStatus := some (S ("deleted")) }
       else m) :: t
    else m :: markFirstDeleted t did

/-- The `deletions.filter` loop of step 1 of `reconcileTrackingData`: every
deletion whose id also occurs in the modifications is removed; along the
way the matching modification is marked `finalStatus = "deleted"`, and for a
quick modify-then-delete of a non-short fragment the id is dropped from the
`modifiedIds` set used for `_filteredModifications`. -/
def reconcileDeletions :
    List DelRec → List ModRec → List Str → List DelRec × List ModRec × List Str
  | [], mods, modifiedIds => ([], mods, modifiedIds)
  | d :: ds, mods, modifiedIds =>
    match findFirstMod mods d.id with
    | none =>
      let r := reconcileDeletions ds mods modifiedIds
      (d :: r.1, r.2.1, r.2.2)
    | some m =>
      let mods' := markFirstDeleted mods d.id
      let wasModifiedThenDeleted := m.modificationTimestamp < d.deletionTimestamp
      let isQuickChange :=
        d.deletionTimestamp - m.modificationTimestamp < 10000
      let isShortBlock :=
        !m.originalText.isEmpty && isShortStatement m.originalText
      let modifiedIds' :=
        if isShortBlock && decide (m.confidenceScore > d.confidenceScore) then
          modifiedIds
        else if wasModifiedThenDeleted && isQuickChange && !isShortBlock then
          modifiedIds.erase d.id
        else modifiedIds
      reconcileDeletions ds mods' modifiedIds'

/-- The per-file result of `reconcileTrackingData`: the (possibly
`finalStatus`-marked) modifications, the filtered deletions, and the
`_filteredModifications` display list. -/
structure ReconciledFileData where
  modifications : List ModRec
  deletions : List DelRec
  filteredModifications : List ModRec

/-- `reconcileTrackingData` restricted to one file: the short-statement
validation pass, then the double-tracking filter over a `Set` of the
modification ids. -/
def reconcileFileData (content : Option Str) (now : ℤ)
    (fd : FileTrackingData) : ReconciledFileData :=
  let fd1 := validateShortStatementReconciliation content now fd
  let modifiedIds := dedupFirst (fd1.modifications.map (fun m => m.id))
  let r := reconcileDeletions fd1.deletions fd1.modifications modifiedIds
  { modifications := r.2.1, deletions := r.1,
    filteredModifications :=
      r.2.1.filter (fun m => r.2.2.contains m.id) }

end Coden

namespace Coden

/-! ## Helper lemmas about the existence evaluator -/

theorem foldl_add_importance (l : List StructuralElement) (a : ℚ) :
    l.foldl (fun sum el => sum + el.importance) a =
      a + (l.map (·.importance)).sum := by
  induction l generalizing a with
  | nil => simp
  | cons h t ih => simp [ih, add_assoc]

theorem sum_map_filter_le (p : StructuralElement → Bool)
    (l : List StructuralElement) (h : ∀ el ∈ l, 0 ≤ el.importance) :
    ((l.filter p).map (·.importance)).sum ≤ (l.map (·.importance)).sum := by
  induction l with
  | nil => simp
  | cons hd t ih =>
    have h0 : 0 ≤ hd.importance := h hd (by simp)
    have ht : ∀ el ∈ t, 0 ≤ el.importance := fun el hm => h el (by simp [hm])
    by_cases hp : p hd
    · simpa [List.filter, hp] using add_le_add_left (ih ht) hd.importance
    · simp only [List.filter, hp, List.map, List.sum_cons]
      exact le_add_of_nonneg_of_le h0 (ih ht)

theorem sum_map_filter_nonneg (p : StructuralElement → Bool)
    (l : List StructuralElement) (h : ∀ el ∈ l, 0 ≤ el.importance) :
    0 ≤ ((l.filter p).map (·.importance)).sum := by
  apply List.sum_nonneg
  intro x hx
  simp only [List.mem_map] at hx
  obtain ⟨el, hel, rfl⟩ := hx
  exact h el (List.mem_of_mem_filter hel)

theorem checkStructuralElements_score_bounds (elements : List StructuralElement)
    (content : Str) (h : ∀ el ∈ elements, 0 ≤ el.importance) :
    0 ≤ (checkStructuralElements elements content).overallScore ∧
      (checkStructuralElements elements content).overallScore ≤ 1 := by
  unfold checkStructuralElements
  simp only [foldl_add_importance, zero_add]
  set tot := (elements.map (·.importance)).sum with htot
  set fnd := ((elements.filter (fun el => containsSub content el.pattern)).map
    (·.importance)).sum with hfnd
  by_cases hpos : tot > 0
  · have hle : fnd ≤ tot := sum_map_filter_le _ elements h
    have hnn : 0 ≤ fnd := sum_map_filter_nonneg _ elements h
    simp only [hpos, if_true]
    constructor
    · positivity
    · exact div_le_one_of_le₀ hle (le_of_lt hpos)
  · simp [hpos]

theorem count_score_bounds (foundLen totalLen : Nat) (h : foundLen ≤ totalLen) :
    0 ≤ ((foundLen : ℚ) / (totalLen : ℚ)) ∧ ((foundLen : ℚ) / (totalLen : ℚ)) ≤ 1 := by
  constructor
  · positivity
  · rcases Nat.eq_zero_or_pos totalLen with h0 | hpos
    · simp [h0]
    · have : (0 : ℚ) < (totalLen : ℚ) := by exact_mod_cast hpos
      exact div_le_one_of_le₀ (by exact_mod_cast h) (le_of_lt this)

theorem checkIdentifiers_score_bounds (identifiers : List Str) (content : Str) :
    0 ≤ (checkIdentifiers identifiers content).overallScore ∧
      (checkIdentifiers identifiers content).overallScore ≤ 1 := by
  unfold checkIdentifiers
  by_cases hpos : identifiers.length > 0
  · simp only [hpos, if_true]
    exact count_score_bounds _ _ (List.length_filter_le _ _)
  · simp [hpos]

theorem checkPatterns_score_bounds (patterns : List Str) (content : Str) :
    0 ≤ (checkPatterns patterns content).overallScore ∧
      (checkPatterns patterns content).overallScore ≤ 1 := by
  unfold checkPatterns
  by_cases hpos : patterns.length > 0
  · simp only [hpos, if_true]
    exact count_score_bounds _ _ (List.length_filter_le _ _)
  · simp [hpos]

theorem calculateExistenceThreshold_bounds (fp : CodeFingerprint) :
    (0.1 : ℚ) ≤ calculateExistenceThreshold fp ∧
      calculateExistenceThreshold fp ≤ (0.7 : ℚ) := by
  unfold calculateExistenceThreshold
  refine ⟨le_max_left _ _, max_le (by norm_num) (min_le_left _ _)⟩

/-! ## Lemmas about the regexp evaluator (for C9) -/

theorem mrun_rest_suffix (re : Re) (st st' : MSt) (h : st' ∈ mrun re st) :
    st'.rest <:+ st.rest := by
  induction re generalizing st st' with
  | strL s =>
    simp only [mrun] at h
    split at h
    · simp only [List.mem_singleton] at h
      subst h
      exact List.drop_suffix _ _
    · exact absurd h (List.not_mem_nil _)
  | cls p =>
    simp only [mrun] at h
    split at h
    · split at h
      · simp only [List.mem_singleton] at h
        subst h
        exact List.drop_suffix _ _
      · exact absurd h (List.not_mem_nil _)
    · exact absurd h (List.not_mem_nil _)
  | starC p =>
    simp only [mrun, List.mem_map] at h
    obtain ⟨k, _, rfl⟩ := h
    exact List.drop_suffix _ _
  | plusC p =>
    simp only [mrun, List.mem_map] at h
    obtain ⟨k, _, rfl⟩ := h
    exact List.drop_suffix _ _
  | seq a b iha ihb =>
    simp only [mrun, List.mem_flatMap] at h
    obtain ⟨mid, hmid, hst⟩ := h
    exact (ihb mid st' hst).trans (iha st mid hmid)
  | alt a b iha ihb =>
    simp only [mrun, List.mem_append] at h
    rcases h with h | h
    · exact iha st st' h
    · exact ihb st st' h
  | grp i a iha =>
    simp only [mrun, List.mem_map] at h
    obtain ⟨st2, hst2, rfl⟩ := h
    exact iha st st2 hst2
  | wb =>
    simp only [mrun] at h
    split at h
    · simp only [List.mem_singleton] at h
      subst h
      exact List.suffix_refl _
    · exact absurd h (List.not_mem_nil _)

theorem runLen_eq_zero (p : Char → Bool) (s : Str)
    (h : ∀ c ∈ s, isWordCharJS c = false)
    (hp : ∀ c, p c = true → isWordCharJS c = true) : runLen p s = 0 := by
  cases s with
  | nil => rfl
  | cons c t =>
    have hc : p c = false := by
      cases hpc : p c
      · rfl
      · have := hp c hpc
        rw [h c (by simp)] at this
        exact absurd this (by simp)
    simp [runLen, hc]

theorem mrun_eq_nil_of_no_word (re : Re) (st : MSt)
    (h : ∀ c ∈ st.rest, isWordCharJS c = false) (hreq : ReqWord re) :
    mrun re st = [] := by
  induction hreq generalizing st with
  | strL hs =>
    rename_i s
    obtain ⟨c, hcs, hcw⟩ := hs
    have hnp : s.isPrefixOf st.rest = false := by
      cases hp : s.isPrefixOf st.rest
      · rfl
      · have hmem : c ∈ st.rest := (List.isPrefixOf_iff_prefix.mp hp).subset hcs
        rw [h c hmem] at hcw
        simp at hcw
    simp [mrun, hnp]
  | cls hp =>
    rename_i p
    cases hrest : st.rest with
    | nil => simp [mrun, hrest]
    | cons c t =>
      have hc : p c = false := by
        cases hpc : p c
        · rfl
        · have hw := hp c hpc
          rw [h c (by rw [hrest]; simp)] at hw
          simp at hw
      simp [mrun, hrest, hc]
  | plusC hp =>
    simp [mrun, runLen_eq_zero _ _ h hp]
  | seqL _ ih =>
    simp [mrun, ih st h]
  | seqR hb ih =>
    simp only [mrun]
    rw [List.eq_nil_iff_forall_not_mem]
    intro x hx
    rw [List.mem_flatMap] at hx
    obtain ⟨mid, hmid, hxm⟩ := hx
    have hsuf := mrun_rest_suffix _ _ _ hmid
    have hmidw : ∀ c ∈ mid.rest, isWordCharJS c = false :=
      fun c hc => h c (hsuf.subset hc)
    rw [ih mid hmidw] at hxm
    exact absurd hxm (List.not_mem_nil _)
  | alt _ _ iha ihb =>
    simp [mrun, iha st h, ihb st h]
  | grp _ ih =>
    simp [mrun, ih st h]

theorem scanGo_eq_nil (re : Re) (fuel : Nat) (prev : Option Char) (s : Str)
    (h : ∀ c ∈ s, isWordCharJS c = false) (hreq : ReqWord re) :
    scanGo re fuel prev s = [] := by
  induction fuel generalizing prev s with
  | zero => rfl
  | succ n ih =>
    cases s with
    | nil => rfl
    | cons c t =>
      have hex : execFirst re prev (c :: t) = none := by
        unfold execFirst
        rw [mrun_eq_nil_of_no_word re _ h hreq]
      simp only [scanGo, hex]
      exact ih (some c) t (fun x hx => h x (by simp [hx]))

theorem scanAll_eq_nil (re : Re) (s : Str)
    (h : ∀ c ∈ s, isWordCharJS c = false) (hreq : ReqWord re) :
    scanAll re s = [] :=
  scanGo_eq_nil re (s.length + 1) none s h hreq

theorem containsSub_mem (hay pat : Str) (h : containsSub hay pat = true) :
    ∀ c ∈ pat, c ∈ hay := by
  induction hay with
  | nil =>
    intro c hc
    simp only [containsSub, List.isEmpty_iff] at h
    subst h
    exact absurd hc (List.not_mem_nil _)
  | cons x t ih =>
    intro c hc
    simp only [containsSub, Bool.or_eq_true] at h
    rcases h with h | h
    · exact (List.isPrefixOf_iff_prefix.mp h).subset hc
    · exact List.mem_cons_of_mem _ (ih h c hc)

theorem containsSub_eq_false (hay pat : Str) (c : Char) (hcp : c ∈ pat)
    (h : ∀ x ∈ hay, x ≠ c) : containsSub hay pat = false := by
  cases hcon : containsSub hay pat
  · rfl
  · exact absurd rfl (h c (containsSub_mem hay pat hcon c hcp))

theorem reqWord_jsImportRe : ReqWord jsImportRe :=
  .seqL (.strL ⟨'i', by decide, by decide⟩)

theorem reqWord_pyImportRe : ReqWord pyImportRe :=
  .alt (.seqL (.strL ⟨'f', by decide, by decide⟩))
    (.seqL (.strL ⟨'i', by decide, by decide⟩))

theorem reqWord_javaImportRe : ReqWord javaImportRe :=
  .seqL (.strL ⟨'i', by decide, by decide⟩)

theorem reqWord_csImportRe : ReqWord csImportRe :=
  .seqL (.strL ⟨'u', by decide, by decide⟩)

theorem reqWord_defaultImportRe : ReqWord defaultImportRe :=
  .alt (.strL ⟨'i', by decide, by decide⟩)
    (.alt (.strL ⟨'u', by decide, by decide⟩)
      (.alt (.strL ⟨'i', by decide, by decide⟩)
        (.strL ⟨'r', by decide, by decide⟩)))

theorem reqWord_wordCls : ReqWord wordCls :=
  .plusC (fun _ h => h)

theorem reqWord_nameRe : ReqWord nameRe :=
  .seqL (.cls (fun c h => by simp [isWordCharJS, Char.isAlphanum, h]))

theorem reqWord_functionRe : ReqWord functionRe :=
  .alt (.seqL (.strL ⟨'f', by decide, by decide⟩))
    (.alt (.seqL (.grp reqWord_wordCls))
      (.alt (.seqL (.grp reqWord_wordCls))
        (.seqL (.grp reqWord_wordCls))))

theorem reqWord_classRe : ReqWord classRe :=
  .seqL (.strL ⟨'c', by decide, by decide⟩)

theorem reqWord_varRe : ReqWord varRe :=
  .alt (.seqL (.alt (.strL ⟨'c', by decide, by decide⟩)
      (.alt (.strL ⟨'l', by decide, by decide⟩)
        (.strL ⟨'v', by decide, by decide⟩))))
    (.seqL (.grp reqWord_wordCls))

theorem reqWord_identifierRe : ReqWord identifierRe :=
  .seqR (.seqL (.grp (.seqL
    (.cls (fun c h => by simp [isWordCharJS, Char.isAlphanum, h])))))

theorem reqWord_funcCallRe : ReqWord funcCallRe :=
  .seqR (.seqL (.grp reqWord_nameRe))

theorem reqWord_propAccessRe : ReqWord propAccessRe :=
  .seqR (.seqL (.grp reqWord_nameRe))

/-! ## Claim theorems: existence evaluator -/

/-- C1: for every fingerprint and document text, if the document text contains
`fingerprint.originalText` verbatim, then `checkCodeExistence` returns
`exists = true`, `modified = false` and confidence exactly 1. -/
theorem claim_C1 (fp : CodeFingerprint) (content : Str)
    (h : containsSub content fp.originalText = true) :
    (checkCodeExistence fp content).exists' = true ∧
      (checkCodeExistence fp content).modified = false ∧
      (checkCodeExistence fp content).confidence = 1 := by
  unfold checkCodeExistence
  simp [h]

/-- Witness for C1 at a concrete fingerprint and document. -/
theorem claim_C1_witness :
    containsSub (S ("xx abc yy")) (S ("abc")) = true ∧
      (checkCodeExistence
        { originalText := S ("abc"), lineCount := 1, structuralElements := [],
          identifiers := [], language := S ("javascript"), semanticPatterns := [] }
        (S ("xx abc yy"))).exists' = true := by
  refine ⟨by decide, ?_⟩
  exact (claim_C1
    { originalText := S ("abc"), lineCount := 1, structuralElements := [],
      identifiers := [], language := S ("javascript"), semanticPatterns := [] }
    (S ("xx abc yy")) (by decide)).1

/-- C2: when the exact-match fast path does not apply (and importances are
nonnegative, as they always are for fingerprints the generator produces),
the confidence is exactly the weighted sum of the three partial scores scaled
by the complexity factor, `exists` is the comparison with the adaptive
threshold, and `modified` additionally requires confidence below
threshold + 0.2. -/
theorem claim_C2 (fp : CodeFingerprint) (content : Str)
    (hno : containsSub content fp.originalText = false)
    (himp : ∀ el ∈ fp.structuralElements, 0 ≤ el.importance) :
    (checkCodeExistence fp content).confidence =
      ((checkStructuralElements fp.structuralElements content).overallScore * (0.5 : ℚ) +
       (checkIdentifiers fp.identifiers content).overallScore * (0.3 : ℚ) +
       (checkPatterns fp.semanticPatterns content).overallScore * (0.2 : ℚ)) *
        min 1 ((0.3 : ℚ) + (fp.lineCount : ℚ) * (0.05 : ℚ)) ∧
    (checkCodeExistence fp content).exists' =
      decide ((checkCodeExistence fp content).confidence ≥
        calculateExistenceThreshold fp) ∧
    (checkCodeExistence fp content).modified =
      ((checkCodeExistence fp content).exists' &&
        decide ((checkCodeExistence fp content).confidence <
          calculateExistenceThreshold fp + (0.2 : ℚ))) := by
  have hs := checkStructuralElements_score_bounds fp.structuralElements content himp
  have hi := checkIdentifiers_score_bounds fp.identifiers content
  have hp := checkPatterns_score_bounds fp.semanticPatterns content
  set s := (checkStructuralElements fp.structuralElements content).overallScore
  set i := (checkIdentifiers fp.identifiers content).overallScore
  set p := (checkPatterns fp.semanticPatterns content).overallScore
  have hw0 : 0 ≤ s * (0.5 : ℚ) + i * (0.3 : ℚ) + p * (0.2 : ℚ) := by
    have := hs.1; have := hi.1; have := hp.1; positivity
  have hw1 : s * (0.5 : ℚ) + i * (0.3 : ℚ) + p * (0.2 : ℚ) ≤ 1 := by
    nlinarith [hs.2, hi.2, hp.2, hs.1, hi.1, hp.1]
  have hf0 : 0 ≤ min 1 ((0.3 : ℚ) + (fp.lineCount : ℚ) * (0.05 : ℚ)) := by
    have : (0 : ℚ) ≤ (fp.lineCount : ℚ) := by positivity
    have : (0.3 : ℚ) ≤ (0.3 : ℚ) + (fp.lineCount : ℚ) * (0.05 : ℚ) := by nlinarith
    refine le_min (by norm_num) (by linarith)
  have hf1 : min 1 ((0.3 : ℚ) + (fp.lineCount : ℚ) * (0.05 : ℚ)) ≤ 1 :=
    min_le_left _ _
  have hprod :
      (s * (0.5 : ℚ) + i * (0.3 : ℚ) + p * (0.2 : ℚ)) *
        min 1 ((0.3 : ℚ) + (fp.lineCount : ℚ) * (0.05 : ℚ)) ≤ 1 :=
    mul_le_one₀ hw1 hf0 hf1
  have hconf : (checkCodeExistence fp content).confidence =
      (s * (0.5 : ℚ) + i * (0.3 : ℚ) + p * (0.2 : ℚ)) *
        min 1 ((0.3 : ℚ) + (fp.lineCount : ℚ) * (0.05 : ℚ)) := by
    unfold checkCodeExistence
    simp only [hno, Bool.false_eq_true, if_false]
    unfold calculateConfidence
    exact min_eq_right hprod
  refine ⟨hconf, ?_, ?_⟩
  · unfold checkCodeExistence
    simp [hno]
  · unfold checkCodeExistence
    simp [hno]

/-- Witness for C2 at a concrete fingerprint and document. -/
theorem claim_C2_witness :
    containsSub (S ("q = 7"))
      (S ("let q = 5")) = false ∧
      (checkCodeExistence
        { originalText := S ("let q = 5"), lineCount := 1,
          structuralElements :=
            [{ etype := .varDecl, name := S ("q"), pattern := S ("q ="),
               importance := 0.6 }],
          identifiers := [S ("q")], language := S ("javascript"),
          semanticPatterns := [] }
        (S ("q = 7"))).confidence =
      ((checkStructuralElements
          [{ etype := .varDecl, name := S ("q"), pattern := S ("q ="),
             importance := 0.6 }] (S ("q = 7"))).overallScore * (0.5 : ℚ) +
       (checkIdentifiers [S ("q")] (S ("q = 7"))).overallScore * (0.3 : ℚ) +
       (checkPatterns ([] : List Str) (S ("q = 7"))).overallScore * (0.2 : ℚ)) *
        min 1 ((0.3 : ℚ) + ((1 : Nat) : ℚ) * (0.05 : ℚ)) := by
  refine ⟨by decide, ?_⟩
  exact (claim_C2
    { originalText := S ("let q = 5"), lineCount := 1,
      structuralElements :=
        [{ etype := .varDecl, name := S ("q"), pattern := S ("q ="),
           importance := 0.6 }],
      identifiers := [S ("q")], language := S ("javascript"),
      semanticPatterns := [] }
    (S ("q = 7")) (by decide) (by decide)).1

/-- C3: the adaptive existence threshold always lies in [0.1, 0.7], and it is
monotonically non-increasing in the line count (element count fixed) and in
the structural-element count (line count fixed). -/
theorem claim_C3 :
    (∀ fp : CodeFingerprint,
      (0.1 : ℚ) ≤ calculateExistenceThreshold fp ∧
        calculateExistenceThreshold fp ≤ (0.7 : ℚ)) ∧
    (∀ fp₁ fp₂ : CodeFingerprint, fp₁.lineCount ≤ fp₂.lineCount →
      fp₁.structuralElements.length = fp₂.structuralElements.length →
      calculateExistenceThreshold fp₂ ≤ calculateExistenceThreshold fp₁) ∧
    (∀ fp₁ fp₂ : CodeFingerprint, fp₁.lineCount = fp₂.lineCount →
      fp₁.structuralElements.length ≤ fp₂.structuralElements.length →
      calculateExistenceThreshold fp₂ ≤ calculateExistenceThreshold fp₁) := by
  have hbase : ∀ l₁ l₂ : Nat, l₁ ≤ l₂ →
      (if l₂ ≤ 1 then (0.5 : ℚ) else if l₂ ≥ 10 then 0.2 else 0.3) ≤
        (if l₁ ≤ 1 then (0.5 : ℚ) else if l₁ ≥ 10 then 0.2 else 0.3) := by
    intro l₁ l₂ h
    split_ifs <;> first | (exfalso; omega) | norm_num
  have hadjm : ∀ t₁ t₂ : ℚ, t₁ ≤ t₂ → ∀ e : Nat,
      (if e = 0 then t₁ + 0.1 else if e ≥ 3 then t₁ - 0.1 else t₁) ≤
        (if e = 0 then t₂ + 0.1 else if e ≥ 3 then t₂ - 0.1 else t₂) := by
    intro t₁ t₂ h e
    split_ifs <;> linarith
  have hadj : ∀ t : ℚ, ∀ e₁ e₂ : Nat, e₁ ≤ e₂ →
      (if e₂ = 0 then t + 0.1 else if e₂ ≥ 3 then t - 0.1 else t) ≤
        (if e₁ = 0 then t + 0.1 else if e₁ ≥ 3 then t - 0.1 else t) := by
    intro t e₁ e₂ h
    split_ifs <;> first | (exfalso; omega) | linarith
  have hclamp : ∀ x y : ℚ, x ≤ y →
      max 0.1 (min 0.7 x) ≤ max 0.1 (min 0.7 y) := by
    intro x y h
    exact max_le_max le_rfl (min_le_min le_rfl h)
  refine ⟨calculateExistenceThreshold_bounds, ?_, ?_⟩
  · intro fp₁ fp₂ hl he
    simp only [calculateExistenceThreshold]
    rw [he]
    exact hclamp _ _ (hadjm _ _ (hbase _ _ hl) _)
  · intro fp₁ fp₂ hl he
    simp only [calculateExistenceThreshold]
    rw [hl]
    exact hclamp _ _ (hadj _ _ _ he)

/-- Witness for C3's monotonicity parts at concrete fingerprints. -/
theorem claim_C3_witness :
    ((1 : Nat) ≤ 12 ∧
      calculateExistenceThreshold
        { originalText := [], lineCount := 12, structuralElements := [],
          identifiers := [], language := [], semanticPatterns := [] } ≤
      calculateExistenceThreshold
        { originalText := [], lineCount := 1, structuralElements := [],
          identifiers := [], language := [], semanticPatterns := [] }) := by
  refine ⟨by decide, ?_⟩
  exact claim_C3.2.1
    { originalText := [], lineCount := 1, structuralElements := [],
      identifiers := [], language := [], semanticPatterns := [] }
    { originalText := [], lineCount := 12, structuralElements := [],
      identifiers := [], language := [], semanticPatterns := [] }
    (by norm_num) rfl

/-- C7 counterexample: on `"const add = (a, b) => a + b;"` with language
`javascript`, the fingerprint has two structural elements (the function
regexp's arrow-function alternative also matches), not exactly one, and the
identifier list does not contain `a` (identifiers must have at least three
characters), so the claimed fingerprint shape is wrong. -/
theorem claim_C7_cex :
    (generateCodeFingerprint (S ("const add = (a, b) => a + b;"))
      (S ("javascript"))).structuralElements.length = 2 ∧
    ¬ (S ("a")) ∈ (generateCodeFingerprint (S ("const add = (a, b) => a + b;"))
      (S ("javascript"))).identifiers := by
  constructor
  · decide
  · decide

/-- C7 amended: `generateCodeFingerprint "const add = (a, b) => a + b;"
"javascript"` yields exactly two structural elements — a `function` element
named `add` (pattern `"add = (a, b) =>"`, importance 0.8) followed by a
`variable` element named `add` (pattern `"const add ="`, importance 0.6) —
identifier list `[add]` (`a` and `b` are shorter than the three-character
minimum and `const` is stoplisted), and semantic patterns
`[arrow_function]`. -/
theorem claim_C7_amended :
    generateCodeFingerprint (S ("const add = (a, b) => a + b;"))
      (S ("javascript")) =
    { originalText := S ("const add = (a, b) => a + b;"), lineCount := 1,
      structuralElements :=
        [{ etype := ElemType.fnDef, name := S ("add"),
           pattern := S ("add = (a, b) =>"), importance := 0.8 },
         { etype := ElemType.varDecl, name := S ("add"),
           pattern := S ("const add ="), importance := 0.6 }],
      identifiers := [S ("add")], language := S ("javascript"),
      semanticPatterns := [S ("arrow_function")] } := by
  decide

/-- C9: `generateCodeFingerprint` is a total function of its two string
arguments (the shallow embedding needs no `Option`/`Except` because the
source throws nowhere), and on input with no recognizable structure — no
word characters and no `=` (so no `=>` arrow) — all three extraction lists
are empty rather than failing. -/
theorem claim_C9 (code lang : Str) :
    ((generateCodeFingerprint code lang).originalText = code ∧
     (generateCodeFingerprint code lang).language = lang ∧
     (generateCodeFingerprint code lang).lineCount = numLines code) ∧
    ((∀ c ∈ code, isWordCharJS c = false ∧ c ≠ '=') →
      (generateCodeFingerprint code lang).structuralElements = [] ∧
      (generateCodeFingerprint code lang).identifiers = [] ∧
      (generateCodeFingerprint code lang).semanticPatterns = []) := by
  refine ⟨⟨rfl, rfl, rfl⟩, ?_⟩
  intro h
  have hw : ∀ c ∈ code, isWordCharJS c = false := fun c hc => (h c hc).1
  have hne : ∀ x ∈ code, x ≠ '=' := fun c hc => (h c hc).2
  have hnw : ∀ w : Char, isWordCharJS w = true → ∀ x ∈ code, x ≠ w := by
    intro w hww x hx hxw
    subst hxw
    rw [hw x hx] at hww
    simp at hww
  refine ⟨?_, ?_, ?_⟩
  · show extractStructuralElements code lang = []
    have himp : ∀ re : Re, ReqWord re → scanAll re code = [] :=
      fun re hre => scanAll_eq_nil re code hw hre
    simp only [extractStructuralElements]
    rw [himp functionRe reqWord_functionRe, himp classRe reqWord_classRe,
      himp varRe reqWord_varRe]
    have hlang : scanAll
        (if lang = S ("typescript") then jsImportRe
         else if lang = S ("javascript") then jsImportRe
         else if lang = S ("python") then pyImportRe
         else if lang = S ("java") then javaImportRe
         else if lang = S ("csharp") then csImportRe
         else defaultImportRe) code = [] := by
      split_ifs
      · exact himp _ reqWord_jsImportRe
      · exact himp _ reqWord_jsImportRe
      · exact himp _ reqWord_pyImportRe
      · exact himp _ reqWord_javaImportRe
      · exact himp _ reqWord_csImportRe
      · exact himp _ reqWord_defaultImportRe
    rw [hlang]
    rfl
  · show extractSignificantIdentifiers code = []
    simp only [extractSignificantIdentifiers]
    rw [scanAll_eq_nil identifierRe code hw reqWord_identifierRe]
    rfl
  · show extractSemanticPatterns code lang = []
    simp only [extractSemanticPatterns]
    rw [scanAll_eq_nil funcCallRe code hw reqWord_funcCallRe,
      scanAll_eq_nil propAccessRe code hw reqWord_propAccessRe]
    rw [containsSub_eq_false code (S ("=>")) '=' (by decide) hne,
      containsSub_eq_false code (S ("class")) 'c' (by decide)
        (hnw 'c' (by decide)),
      containsSub_eq_false code (S ("import")) 'i' (by decide)
        (hnw 'i' (by decide)),
      containsSub_eq_false code (S ("async")) 'a' (by decide)
        (hnw 'a' (by decide)),
      containsSub_eq_false code (S ("try")) 't' (by decide)
        (hnw 't' (by decide))]
    rfl

/-- Witness for C9's empty-extraction part at a concrete symbol-only input. -/
theorem claim_C9_witness :
    (∀ c ∈ S ("?? !! ;;"), isWordCharJS c = false ∧ c ≠ '=') ∧
      (generateCodeFingerprint (S ("?? !! ;;"))
        (S ("text"))).structuralElements = [] := by
  refine ⟨by decide, ?_⟩
  exact ((claim_C9 (S ("?? !! ;;")) (S ("text"))).2 (by decide)).1

/-- C10: a fingerprint with no structural elements, identifiers or patterns,
checked against a document that does not contain its original text, gets
confidence 0 and `exists = false` (each partial score's division is guarded,
so an empty set yields score 0). -/
theorem claim_C10 (fp : CodeFingerprint) (content : Str)
    (he : fp.structuralElements = []) (hi : fp.identifiers = [])
    (hp : fp.semanticPatterns = [])
    (hno : containsSub content fp.originalText = false) :
    (checkCodeExistence fp content).confidence = 0 ∧
      (checkCodeExistence fp content).exists' = false := by
  have hthr := calculateExistenceThreshold_bounds fp
  have hconf : (checkCodeExistence fp content).confidence = 0 := by
    unfold checkCodeExistence
    simp only [hno, Bool.false_eq_true, if_false]
    unfold calculateConfidence
    simp [he, hi, hp, checkStructuralElements, checkIdentifiers, checkPatterns]
  refine ⟨hconf, ?_⟩
  unfold checkCodeExistence at hconf ⊢
  simp only [hno, Bool.false_eq_true, if_false] at hconf ⊢
  simp only [decide_eq_false_iff_not, not_le, Bool.and_eq_false_iff]
  rw [hconf]
  linarith [hthr.1]

/-- Witness for C10 at a concrete empty fingerprint. -/
theorem claim_C10_witness :
    containsSub (S ("other text")) (S ("gone")) = false ∧
      (checkCodeExistence
        { originalText := S ("gone"), lineCount := 1, structuralElements := [],
          identifiers := [], language := S ("javascript"), semanticPatterns := [] }
        (S ("other text"))).exists' = false := by
  refine ⟨by decide, ?_⟩
  exact (claim_C10
    { originalText := S ("gone"), lineCount := 1, structuralElements := [],
      identifiers := [], language := S ("javascript"), semanticPatterns := [] }
    (S ("other text")) rfl rfl rfl (by decide)).2

/-! ## Claim theorems: tracker idempotence and fusion -/

/-- C8: tracking is idempotent — with the document content (and language id)
unchanged, running `trackCodeChanges` a second time on the region state left
by the first run yields the identical verdict (`exists`, `modified`,
`confidence`, `changeType`). -/
theorem claim_C8 (content languageId : Str) (region : TrackedCodeRegion) :
    (trackCodeChanges content languageId
      (trackCodeChanges content languageId region).2).1 =
      (trackCodeChanges content languageId region).1 := by
  obtain ⟨id, sl, el, sc, ec, text, ts, fp, m, dl, lr⟩ := region
  cases fp <;> rfl

/-- C4: for any method results, the fused flags of `combineTrackingResults`
and of the import fusion agree with thresholding the confidence-weighted
average of the 0/1 flags — at 0.5 for modification (both), at 0.5 for
deletion of non-import fragments, and at 0.7 for deletion of import
fragments. -/
theorem claim_C4 (l s sn imp : MethodResult) :
    ((combineTrackingResults l s sn).modificationDetected =
      decide (weightedFlagAverage [l, s, sn]
        (fun r => r.modificationDetected) > (0.5 : ℚ))) ∧
    ((combineTrackingResults l s sn).deletionDetected =
      decide (weightedFlagAverage [l, s, sn]
        (fun r => r.deletionDetected) > (0.5 : ℚ))) ∧
    ((combineImportTrackingResults l s sn imp).modificationDetected =
      decide (weightedFlagAverage [l, s, sn, imp]
        (fun r => r.modificationDetected) > (0.5 : ℚ))) ∧
    ((combineImportTrackingResults l s sn imp).deletionDetected =
      decide (weightedFlagAverage [l, s, sn, imp]
        (fun r => r.deletionDetected) > (0.7 : ℚ))) := by
  have h3 : ∀ flag : MethodResult → Bool,
      weightedFlagAverage [l, s, sn] flag =
        (b2q (flag l) * l.confidence + b2q (flag s) * s.confidence +
          b2q (flag sn) * sn.confidence) /
          (l.confidence + s.confidence + sn.confidence) := by
    intro flag
    simp only [weightedFlagAverage, List.map_cons, List.map_nil,
      List.sum_cons, List.sum_nil, add_zero]
    ring_nf
  have h4 : ∀ flag : MethodResult → Bool,
      weightedFlagAverage [l, s, sn, imp] flag =
        (b2q (flag l) * l.confidence + b2q (flag s) * s.confidence +
          b2q (flag sn) * sn.confidence + b2q (flag imp) * imp.confidence) /
          (l.confidence + s.confidence + sn.confidence + imp.confidence) := by
    intro flag
    simp only [weightedFlagAverage, List.map_cons, List.map_nil,
      List.sum_cons, List.sum_nil, add_zero]
    ring_nf
  refine ⟨?_, ?_, ?_, ?_⟩ <;>
    simp only [combineTrackingResults, combineImportTrackingResults, h3, h4]

/-! ## Lemmas for the region ledger claims (C5, C6) -/

theorem markFirstDeleted_ids (mods : List ModRec) (did : Str) :
    (markFirstDeleted mods did).map (fun m => m.id) =
      mods.map (fun m => m.id) := by
  induction mods with
  | nil => rfl
  | cons m t ih =>
    by_cases h : m.id == did
    · simp only [markFirstDeleted, h, if_true, List.map_cons]
      split <;> simp
    · simp [markFirstDeleted, h, ih]

theorem reconcileDeletions_spec (dels : List DelRec) (mods : List ModRec)
    (ids : List Str) :
    ((reconcileDeletions dels mods ids).2.1.map (fun m => m.id) =
      mods.map (fun m => m.id)) ∧
    (∀ d ∈ (reconcileDeletions dels mods ids).1,
      ¬ d.id ∈ mods.map (fun m => m.id)) := by
  induction dels generalizing mods ids with
  | nil =>
    simp [reconcileDeletions]
  | cons d ds ih =>
    cases hfind : findFirstMod mods d.id with
    | none =>
      simp only [reconcileDeletions, hfind]
      refine ⟨(ih mods ids).1, ?_⟩
      intro d' hd'
      rcases List.mem_cons.mp hd' with rfl | hd'
      · intro hmem
        rw [List.mem_map] at hmem
        obtain ⟨m, hm, hmid⟩ := hmem
        have := List.find?_eq_none.mp hfind m hm
        rw [hmid] at this
        simp at this
      · exact (ih mods ids).2 d' hd'
    | some m0 =>
      simp only [reconcileDeletions, hfind]
      have hids := markFirstDeleted_ids mods d.id
      constructor
      · rw [(ih _ _).1, hids]
      · intro d' hd'
        have := (ih _ _).2 d' hd'
        rw [hids] at this
        exact this

/-- C5: after the per-file reconciliation pass, no record id appears in both
the returned deletions list and the returned modifications list. -/
theorem claim_C5 (content : Option Str) (now : ℤ) (fd : FileTrackingData)
    (d : DelRec) (hd : d ∈ (reconcileFileData content now fd).deletions)
    (m : ModRec) (hm : m ∈ (reconcileFileData content now fd).modifications) :
    d.id ≠ m.id := by
  simp only [reconcileFileData] at hd hm
  have hspec := reconcileDeletions_spec
    (validateShortStatementReconciliation content now fd).deletions
    (validateShortStatementReconciliation content now fd).modifications
    (dedupFirst ((validateShortStatementReconciliation content now
      fd).modifications.map (fun m => m.id)))
  intro heq
  apply hspec.2 d hd
  rw [heq, ← hspec.1, List.mem_map]
  exact ⟨m, hm, rfl⟩

/-- Witness for C5 at a concrete store. -/
theorem claim_C5_witness :
    ({ id := S ("b"), originalTimestamp := 0, deletionTimestamp := 0,
       originalText := S ("gone text"), confidenceScore := 1 } : DelRec) ∈
      (reconcileFileData none 0
        { modifications :=
            [{ id := S ("a"), originalTimestamp := 0, modificationTimestamp := 0,
               originalText := S ("kept text"), confidenceScore := 1,
               modType := S ("inline_edit"), finalStatus := none }],
          deletions :=
            [{ id := S ("b"), originalTimestamp := 0, deletionTimestamp := 0,
               originalText := S ("gone text"), confidenceScore := 1 }] }).deletions ∧
    (S ("b")) ≠ (S ("a")) := by
  refine ⟨by decide, ?_⟩
  exact claim_C5 none 0
    { modifications :=
        [{ id := S ("a"), originalTimestamp := 0, modificationTimestamp := 0,
           originalText := S ("kept text"), confidenceScore := 1,
           modType := S ("inline_edit"), finalStatus := none }],
      deletions :=
        [{ id := S ("b"), originalTimestamp := 0, deletionTimestamp := 0,
           originalText := S ("gone text"), confidenceScore := 1 }] }
    { id := S ("b"), originalTimestamp := 0, deletionTimestamp := 0,
      originalText := S ("gone text"), confidenceScore := 1 }
    (by decide)
    { id := S ("a"), originalTimestamp := 0, modificationTimestamp := 0,
      originalText := S ("kept text"), confidenceScore := 1,
      modType := S ("inline_edit"), finalStatus := none }
    (by decide)

/-! ## Lemmas about `statementExistsInContent` and `validateOne` (for C6) -/

theorem length_filter_mono {α : Type} (p q : α → Bool) (l : List α)
    (h : ∀ x ∈ l, p x = true → q x = true) :
    (l.filter p).length ≤ (l.filter q).length := by
  induction l with
  | nil => simp
  | cons a t ih =>
    have ht : ∀ x ∈ t, p x = true → q x = true :=
      fun x hx => h x (by simp [hx])
    by_cases hp : p a = true
    · rw [List.filter_cons_of_pos hp, List.filter_cons_of_pos (h a (by simp) hp)]
      simpa using ih ht
    · rw [List.filter_cons_of_neg (by simpa using hp)]
      by_cases hq : q a = true
      · rw [List.filter_cons_of_pos hq]
        exact le_trans (ih ht) (by simp)
      · rw [List.filter_cons_of_neg (by simpa using hq)]
        exact ih ht

theorem statementExists_of_contains_trim (statement content : Str)
    (h : containsSub content (trimJS statement) = true) :
    statementExistsInContent statement content = true := by
  simp [statementExistsInContent, h]

theorem statementExists_eq_false (statement content : Str)
    (hT : containsSub content (trimJS statement) = false)
    (hTok : ∀ t ∈ extractSignificantTokens statement,
      containsSub content t = false) :
    statementExistsInContent statement content = false := by
  simp only [statementExistsInContent, hT, Bool.false_eq_true, if_false]
  split
  · rfl
  · rename_i hlen
    have hfil : (extractSignificantTokens statement).filter
        (fun token => token.length > 2 && containsSub content token) = [] := by
      rw [List.filter_eq_nil_iff]
      intro t ht
      simp [hTok t ht]
    rw [hfil]
    rw [decide_eq_false_iff_not]
    intro hge
    have h1 : (1 : ℚ) ≤
        max 1 (((extractSignificantTokens statement).length : ℚ) * (0.6 : ℚ)) :=
      le_max_left _ _
    simp only [List.length_nil, Nat.cast_zero] at hge
    linarith

theorem statementExists_of_significantMatch (statement content : Str)
    (hn : 2 ≤ (extractSignificantTokens statement).length)
    (hm : ((((extractSignificantTokens statement).filter (fun id =>
        containsSub content id && decide (3 < id.length))).length : ℚ) ≥
        max 2 (((extractSignificantTokens statement).length : ℚ) * (0.6 : ℚ)))) :
    statementExistsInContent statement content = true := by
  by_cases hc : containsSub content (trimJS statement) = true
  · exact statementExists_of_contains_trim statement content hc
  · rw [Bool.not_eq_true] at hc
    simp only [statementExistsInContent, hc, Bool.false_eq_true, if_false]
    have h0 : ¬ (extractSignificantTokens statement).length = 0 := by omega
    rw [if_neg h0, decide_eq_true_eq]
    have hsub : (((extractSignificantTokens statement).filter (fun id =>
        containsSub content id && decide (3 < id.length))).length : ℚ) ≤
        (((extractSignificantTokens statement).filter (fun token =>
          token.length > 2 && containsSub content token)).length : ℚ) := by
      have := length_filter_mono
        (fun id => containsSub content id && decide (3 < id.length))
        (fun token => token.length > 2 && containsSub content token)
        (extractSignificantTokens statement)
        (by
          intro x hx hpx
          simp only [Bool.and_eq_true, decide_eq_true_eq] at hpx ⊢
          exact ⟨by omega, hpx.1⟩)
      exact_mod_cast this
    have hmax : max 1 (((extractSignificantTokens statement).length : ℚ) *
        (0.6 : ℚ)) ≤
        max 2 (((extractSignificantTokens statement).length : ℚ) * (0.6 : ℚ)) :=
      max_le_max (by norm_num) le_rfl
    linarith

theorem pushIfAbsent_of_absent (mods : List ModRec) (d : DelRec) (conf : ℚ)
    (mt : Str) (now : ℤ) (habs : ∀ m ∈ mods, m.id ≠ d.id) :
    (pushIfAbsent mods d conf mt now).2 = true ∧
    ∃ nm : ModRec, (pushIfAbsent mods d conf mt now).1 = mods ++ [nm] ∧
      nm.id = d.id := by
  have hany : mods.any (fun m => m.id == d.id) = false := by
    rw [List.any_eq_false]
    intro m hm
    simp only [beq_iff_eq]
    exact habs m hm
  unfold pushIfAbsent
  rw [hany]
  exact ⟨rfl, _, rfl, rfl⟩

theorem pushIfAbsent_shape (mods : List ModRec) (d : DelRec) (conf : ℚ)
    (mt : Str) (now : ℤ) :
    (pushIfAbsent mods d conf mt now).1 = mods ∨
    ∃ nm : ModRec, (pushIfAbsent mods d conf mt now).1 = mods ++ [nm] ∧
      nm.id = d.id := by
  unfold pushIfAbsent
  split
  · exact Or.inl rfl
  · exact Or.inr ⟨_, rfl, rfl⟩

theorem validateOne_mods_shape (content : Str) (now : ℤ) (mods : List ModRec)
    (d : DelRec) :
    (validateOne content now mods d).2.1 = mods ∨
    ∃ nm : ModRec, (validateOne content now mods d).2.1 = mods ++ [nm] ∧
      nm.id = d.id := by
  simp only [validateOne]
  split
  · exact Or.inl rfl
  · split
    · exact pushIfAbsent_shape mods d _ _ now
    · split
      · exact Or.inl rfl
      · split
        · exact pushIfAbsent_shape mods d _ _ now
        · split
          · split
            · exact pushIfAbsent_shape mods d _ _ now
            · exact Or.inl rfl
          · exact Or.inl rfl

theorem validateOne_reclassify (content : Str) (now : ℤ) (mods : List ModRec)
    (d : DelRec) (hlen : 5 ≤ d.originalText.length)
    (habs : ∀ m ∈ mods, m.id ≠ d.id)
    (hsf : stillFoundInContent content d = true) :
    (validateOne content now mods d).1 = false ∧
    (validateOne content now mods d).2.2 = true ∧
    ∃ nm : ModRec, (validateOne content now mods d).2.1 = mods ++ [nm] ∧
      nm.id = d.id := by
  have hnot5 : ¬ d.originalText.length < 5 := by omega
  by_cases hS : isShortStatement d.originalText = true
  · have hE : statementExistsInContent d.originalText content = true := by
      by_cases hE : statementExistsInContent d.originalText content = true
      · exact hE
      · exfalso
        rw [Bool.not_eq_true] at hE
        have hct : containsSub content (trimJS d.originalText) = false := by
          cases hct : containsSub content (trimJS d.originalText)
          · rfl
          · rw [statementExists_of_contains_trim d.originalText content hct]
              at hE
            simp at hE
        simp only [stillFoundInContent, hS, hE, hct, Bool.true_and,
          Bool.and_false, Bool.false_or, Bool.and_eq_true,
          decide_eq_true_eq, Bool.or_eq_true] at hsf
        exact absurd (statementExists_of_significantMatch d.originalText
          content hsf.1 hsf.2) (by rw [hE]; simp)
    have hpush := pushIfAbsent_of_absent mods d (0.9 : ℚ)
      (S ("statement_exists")) now habs
    simp only [validateOne]
    rw [if_neg hnot5, if_pos (by rw [hS, hE]; rfl)]
    exact ⟨rfl, hpush.1, hpush.2⟩
  · rw [Bool.not_eq_true] at hS
    by_cases hc : (d.originalText.length < 30 ∧
        containsSub content (trimJS d.originalText) = true)
    · have hpush := pushIfAbsent_of_absent mods d (0.8 : ℚ)
        (S ("content_exists")) now habs
      simp only [validateOne]
      rw [if_neg hnot5, if_neg (by rw [hS]; simp), if_neg (by rw [hS]; simp),
        if_pos (by rw [hc.2, Bool.and_true]; exact decide_eq_true hc.1)]
      exact ⟨rfl, hpush.1, hpush.2⟩
    · have hsig : 2 ≤ (extractSignificantTokens d.originalText).length ∧
          ((((extractSignificantTokens d.originalText).filter (fun id =>
            containsSub content id && decide (3 < id.length))).length : ℚ) ≥
            max 2 (((extractSignificantTokens d.originalText).length : ℚ) *
              (0.6 : ℚ))) := by
        simp only [stillFoundInContent, hS, Bool.false_and, Bool.false_or,
          Bool.or_eq_true, Bool.and_eq_true, decide_eq_true_eq] at hsf
        rcases hsf with hsf | hsf
        · exact absurd hsf hc
        · exact hsf
      have hc4 : ¬ ((decide (d.originalText.length < 30) &&
          containsSub content (trimJS d.originalText)) = true) := by
        intro hcc
        rw [Bool.and_eq_true, decide_eq_true_eq] at hcc
        exact hc hcc
      have hpush := pushIfAbsent_of_absent mods d (0.7 : ℚ)
        (S ("identifiers_found")) now habs
      simp only [validateOne]
      rw [if_neg hnot5, if_neg (by rw [hS]; simp), if_neg (by rw [hS]; simp),
        if_neg hc4, if_pos hsig.1, if_pos (decide_eq_true hsig.2)]
      exact ⟨rfl, hpush.1, hpush.2⟩

theorem validateOne_keep (content : Str) (now : ℤ) (mods : List ModRec)
    (d : DelRec)
    (hT : containsSub content (trimJS d.originalText) = false)
    (hTok : ∀ t ∈ extractSignificantTokens d.originalText,
      containsSub content t = false)
    (hConf : isShortStatement d.originalText = true →
      (0.7 : ℚ) ≤ d.confidenceScore) :
    validateOne content now mods d = (true, mods, false) := by
  by_cases h5 : d.originalText.length < 5
  · simp [validateOne, h5]
  · have hE : statementExistsInContent d.originalText content = false :=
      statementExists_eq_false d.originalText content hT hTok
    have hclow : (isShortStatement d.originalText &&
        decide (d.confidenceScore < (0.7 : ℚ))) = false := by
      cases hS : isShortStatement d.originalText
      · rfl
      · have := hConf hS
        simp only [Bool.true_and, decide_eq_false_iff_not, not_lt]
        exact this
    simp only [validateOne]
    rw [if_neg h5, if_neg (by rw [hE]; simp), if_neg (by rw [hclow]; simp),
      if_neg (by rw [hT]; simp)]
    by_cases hids : 2 ≤ (extractSignificantTokens d.originalText).length
    · rw [if_pos hids]
      have hfil : (extractSignificantTokens d.originalText).filter (fun id =>
          containsSub content id && decide (3 < id.length)) = [] := by
        rw [List.filter_eq_nil_iff]
        intro t ht
        simp [hTok t ht]
      rw [hfil, if_neg ?hc6]
      case hc6 =>
        rw [decide_eq_true_eq]
        intro hge
        have h2 : (2 : ℚ) ≤
            max 2 (((extractSignificantTokens d.originalText).length : ℚ) *
              (0.6 : ℚ)) := le_max_left _ _
        simp only [List.length_nil, Nat.cast_zero] at hge
        linarith
    · rw [if_neg hids]

/-! ## Lemmas about the per-file final-validation fold (for C6) -/

theorem finalValidateFold_cons (content : Str) (now : ℤ) (d : DelRec)
    (ds : List DelRec) (mods : List ModRec) (changes : Bool) :
    finalValidateFold content now (d :: ds) mods changes =
      ((if (validateOne content now mods d).1 then
          d :: (finalValidateFold content now ds
            (validateOne content now mods d).2.1
            (changes || (validateOne content now mods d).2.2)).1
        else (finalValidateFold content now ds
            (validateOne content now mods d).2.1
            (changes || (validateOne content now mods d).2.2)).1),
       (finalValidateFold content now ds (validateOne content now mods d).2.1
          (changes || (validateOne content now mods d).2.2)).2.1,
       (finalValidateFold content now ds (validateOne content now mods d).2.1
          (changes || (validateOne content now mods d).2.2)).2.2) := rfl

theorem finalValidateFold_mods_mem (content : Str) (now : ℤ)
    (dels : List DelRec) (mods : List ModRec) (changes : Bool) :
    ∀ m ∈ mods, m ∈ (finalValidateFold content now dels mods changes).2.1 := by
  induction dels generalizing mods changes with
  | nil =>
    intro m hm
    simpa [finalValidateFold] using hm
  | cons d ds ih =>
    intro m hm
    rw [finalValidateFold_cons]
    rcases validateOne_mods_shape content now mods d with hsh | ⟨nm, hsh, _⟩
    · exact ih _ _ m (by rw [hsh]; exact hm)
    · exact ih _ _ m (by rw [hsh]; exact List.mem_append_left _ hm)

theorem finalValidateFold_flag (content : Str) (now : ℤ)
    (dels : List DelRec) (mods : List ModRec) :
    (finalValidateFold content now dels mods true).2.2 = true := by
  induction dels generalizing mods with
  | nil => rfl
  | cons d ds ih =>
    rw [finalValidateFold_cons, Bool.true_or]
    exact ih _

theorem finalValidateFold_sublist (content : Str) (now : ℤ)
    (dels : List DelRec) (mods : List ModRec) (changes : Bool) :
    List.Sublist (finalValidateFold content now dels mods changes).1 dels := by
  induction dels generalizing mods changes with
  | nil => simp [finalValidateFold]
  | cons d ds ih =>
    rw [finalValidateFold_cons]
    dsimp only
    split
    · exact List.Sublist.cons₂ d (ih _ _)
    · exact List.Sublist.cons d (ih _ _)

theorem finalValidateFold_reclassify (content : Str) (now : ℤ)
    (dels : List DelRec) (d : DelRec)
    (hd : d ∈ dels) (hnodup : (dels.map (fun x => x.id)).Nodup)
    (hlen : 5 ≤ d.originalText.length)
    (hsf : stillFoundInContent content d = true) :
    ∀ mods : List ModRec, ∀ changes : Bool,
    (∀ m ∈ mods, m.id ≠ d.id) →
    (∃ m ∈ (finalValidateFold content now dels mods changes).2.1,
      m.id = d.id) ∧
    (∀ d' ∈ (finalValidateFold content now dels mods changes).1,
      d'.id ≠ d.id) ∧
    (finalValidateFold content now dels mods changes).2.2 = true := by
  induction dels with
  | nil => exact absurd hd (List.not_mem_nil d)
  | cons e ds ih =>
    intro mods changes habs
    have hnodup' : (ds.map (fun x => x.id)).Nodup :=
      (List.nodup_cons.mp hnodup).2
    have hheadid : e.id ∉ ds.map (fun x => x.id) :=
      (List.nodup_cons.mp hnodup).1
    rcases List.mem_cons.mp hd with rfl | hdds
    · obtain ⟨hkeep, hpushed, nm, hmods, hnmid⟩ :=
        validateOne_reclassify content now mods d hlen habs hsf
      rw [finalValidateFold_cons, hkeep, hpushed, hmods, Bool.or_true]
      dsimp only
      rw [if_neg (by simp)]
      refine ⟨⟨nm, ?_, hnmid⟩, ?_, ?_⟩
      · exact finalValidateFold_mods_mem content now ds (mods ++ [nm]) true nm
          (List.mem_append_right _ (by simp))
      · intro d' hd'
        have hsub := finalValidateFold_sublist content now ds (mods ++ [nm]) true
        have hd'ds : d' ∈ ds := hsub.subset hd'
        intro heq
        apply hheadid
        rw [← heq]
        exact List.mem_map.mpr ⟨d', hd'ds, rfl⟩
      · exact finalValidateFold_flag content now ds (mods ++ [nm])
    · have heid : e.id ≠ d.id := by
        intro heq
        apply hheadid
        rw [heq]
        exact List.mem_map.mpr ⟨d, hdds, rfl⟩
      have habs' : ∀ m ∈ (validateOne content now mods e).2.1, m.id ≠ d.id := by
        rcases validateOne_mods_shape content now mods e with hsh | ⟨nm, hsh, hnmid⟩
        · rw [hsh]; exact habs
        · rw [hsh]
          intro m hm
          rcases List.mem_append.mp hm with hm | hm
          · exact habs m hm
          · rw [List.mem_singleton.mp hm, hnmid]
            exact heid
      obtain ⟨h1, h2, h3⟩ := ih hdds hnodup'
        (validateOne content now mods e).2.1
        (changes || (validateOne content now mods e).2.2) habs'
      rw [finalValidateFold_cons]
      refine ⟨h1, ?_, h3⟩
      intro d' hd'
      dsimp only at hd'
      rcases hif : (validateOne content now mods e).1 with _ | _
      · rw [hif] at hd'
        simp only [Bool.false_eq_true, if_false] at hd'
        exact h2 d' hd'
      · rw [hif] at hd'
        simp only [if_true] at hd'
        rcases List.mem_cons.mp hd' with rfl | hd'
        · exact heid
        · exact h2 d' hd'

theorem finalValidateFold_keep (content : Str) (now : ℤ)
    (dels : List DelRec) (d : DelRec)
    (hd : d ∈ dels)
    (hT : containsSub content (trimJS d.originalText) = false)
    (hTok : ∀ t ∈ extractSignificantTokens d.originalText,
      containsSub content t = false)
    (hConf : isShortStatement d.originalText = true →
      (0.7 : ℚ) ≤ d.confidenceScore) :
    ∀ mods : List ModRec, ∀ changes : Bool,
    d ∈ (finalValidateFold content now dels mods changes).1 := by
  induction dels with
  | nil => exact absurd hd (List.not_mem_nil d)
  | cons e ds ih =>
    intro mods changes
    rcases List.mem_cons.mp hd with rfl | hdds
    · have hv := validateOne_keep content now mods d hT hTok hConf
      rw [finalValidateFold_cons, hv]
      dsimp only
      exact List.mem_cons_self _ _
    · rw [finalValidateFold_cons]
      dsimp only
      split
      · exact List.mem_cons_of_mem _ (ih hdds _ _)
      · exact ih hdds _ _

/-- C6 counterexample: a recorded deletion whose `originalText` (here
`"abc"`, shorter than 5 characters) is still found verbatim in the current
file content is nevertheless kept in the deletions list and no modification
is appended — the source skips "very short content" before any of the
still-found checks, so the claim's "whenever the fragment text is still
found" is false as stated. -/
theorem claim_C6_cex :
    containsSub (S ("abc here"))
      ({ id := S ("d1"), originalTimestamp := 0, deletionTimestamp := 0,
         originalText := S ("abc"), confidenceScore := 0.9 } :
        DelRec).originalText = true ∧
    performFinalValidationFile (S ("abc here")) 5
      { modifications := [],
        deletions := [{ id := S ("d1"), originalTimestamp := 0,
                        deletionTimestamp := 0, originalText := S ("abc"),
                        confidenceScore := 0.9 }] } =
    { modifications := [],
      deletions := [{ id := S ("d1"), originalTimestamp := 0,
                      deletionTimestamp := 0, originalText := S ("abc"),
                      confidenceScore := 0.9 }] } := by
  constructor
  · decide
  · decide

/-- C6 amended: for a recorded deletion of at least 5 characters whose id is
not yet in the modifications list (ids of deletions being distinct), the
final-validation pass reclassifies it — appends a modification with its id
and drops its id from the deletions list — whenever it is "still found":
its short-statement token check succeeds, or its trimmed sub-30-character
text occurs in the content, or at least 60% (and at least 2) of its
significant identifiers longer than 3 characters are still found.
Conversely a deletion whose trimmed text and significant tokens leave no
trace in the content is kept in the deletions list, provided that — when it
is a short single-line statement — its recorded confidence is at least 0.7
(below that the filter would drop it silently, though the drop only takes
effect when some other deletion was reclassified in the same pass). -/
theorem claim_C6_amended (content : Str) (now : ℤ) (fd : FileTrackingData)
    (d : DelRec) (hd : d ∈ fd.deletions)
    (hnodup : (fd.deletions.map (fun x => x.id)).Nodup) :
    ((5 ≤ d.originalText.length →
      (∀ m ∈ fd.modifications, m.id ≠ d.id) →
      stillFoundInContent content d = true →
      (∃ m ∈ (performFinalValidationFile content now fd).modifications,
        m.id = d.id) ∧
      (∀ d' ∈ (performFinalValidationFile content now fd).deletions,
        d'.id ≠ d.id))) ∧
    ((containsSub content (trimJS d.originalText) = false →
      (∀ t ∈ extractSignificantTokens d.originalText,
        containsSub content t = false) →
      (isShortStatement d.originalText = true →
        (0.7 : ℚ) ≤ d.confidenceScore) →
      d ∈ (performFinalValidationFile content now fd).deletions)) := by
  constructor
  · intro hlen habs hsf
    obtain ⟨h1, h2, h3⟩ := finalValidateFold_reclassify content now
      fd.deletions d hd hnodup hlen hsf fd.modifications false habs
    have hsub := finalValidateFold_sublist content now fd.deletions
      fd.modifications false
    have hdnot : d ∉ (finalValidateFold content now fd.deletions
        fd.modifications false).1 :=
      fun hmem => (h2 d hmem) rfl
    have hlens : (finalValidateFold content now fd.deletions
        fd.modifications false).1.length ≠ fd.deletions.length := by
      intro heq
      rw [hsub.eq_of_length heq] at hdnot
      exact hdnot hd
    have hcond : ((finalValidateFold content now fd.deletions
        fd.modifications false).2.2 &&
        decide ((finalValidateFold content now fd.deletions
          fd.modifications false).1.length ≠ fd.deletions.length)) = true := by
      rw [h3, decide_eq_true hlens]
      rfl
    have hun : (performFinalValidationFile content now fd).deletions =
        (finalValidateFold content now fd.deletions fd.modifications
          false).1 := by
      simp only [performFinalValidationFile]
      rw [if_pos hcond]
    refine ⟨h1, ?_⟩
    intro d' hd'
    rw [hun] at hd'
    exact h2 d' hd'
  · intro hT hTok hConf
    have hk := finalValidateFold_keep content now fd.deletions d hd hT hTok
      hConf fd.modifications false
    simp only [performFinalValidationFile]
    split
    · exact hk
    · exact hd

/-- Witness for C6 amended: a concrete deletion with no surviving tokens and
confidence 0.8 stays in the deletions list. -/
theorem claim_C6_witness :
    ({ id := S ("k1"), originalTimestamp := 0, deletionTimestamp := 0,
       originalText := S ("zzqq vvww"), confidenceScore := 0.8 } : DelRec) ∈
      (performFinalValidationFile (S ("nothing here")) 0
        { modifications := [],
          deletions := [{ id := S ("k1"), originalTimestamp := 0,
                          deletionTimestamp := 0,
                          originalText := S ("zzqq vvww"),
                          confidenceScore := 0.8 }] }).deletions :=
  (claim_C6_amended (S ("nothing here")) 0
    { modifications := [],
      deletions := [{ id := S ("k1"), originalTimestamp := 0,
                      deletionTimestamp := 0,
                      originalText := S ("zzqq vvww"),
                      confidenceScore := 0.8 }] }
    { id := S ("k1"), originalTimestamp := 0, deletionTimestamp := 0,
      originalText := S ("zzqq vvww"), confidenceScore := 0.8 }
    (by decide) (by decide)).2 (by decide) (by decide) (by decide)

end Coden
